import Mathlib

/-!
Shallow embedding of the intraday backtest engine (`backtest_engine.py`):
the execution model, the stop/target engine, position sizing, and the
`Backtester.run` per-bar state machine, over exact rationals.  Timestamps
are modelled as natural numbers counted in minutes; the time-of-day used
by the session check is the timestamp modulo 1440.  A NaN/undefined ATR
value is modelled as `none`.
-/

namespace Intraday

/-- One row of the indicator-enriched dataframe: the columns the engine
reads (`datetime`, `open`, `high`, `low`, `close`, `atr`). -/
structure Bar where
  datetime : Nat
  open_ : ℚ
  high : ℚ
  low : ℚ
  close : ℚ
  atr : Option ℚ
deriving Repr, DecidableEq, Inhabited

/-- `Trade` dataclass of the engine. -/
structure Trade where
  entry_time : Nat
  exit_time : Option Nat
  direction : Int
  entry_price : ℚ
  exit_price : Option ℚ
  size : ℚ
  pnl : Option ℚ
  reason : String
deriving Repr, DecidableEq, Inhabited

/-- One element of `Backtester.equity_curve`. -/
structure EquityPoint where
  datetime : Nat
  equity : ℚ
deriving Repr, DecidableEq, Inhabited

/-- Configuration: the `ExecutionModel` parameters together with the
`Backtester` constructor parameters.  `session_start` and `session_end`
are minutes-of-day. -/
structure Config where
  slippage_bps : ℚ
  commission_per_trade : ℚ
  initial_equity : ℚ
  risk_fraction : ℚ
  max_leverage : ℚ
  session_start : Nat
  session_end : Nat
deriving Repr, DecidableEq, Inhabited

/-- `ExecutionModel.next_open_with_slippage`. -/
def next_open_with_slippage (cfg : Config) (next_open : ℚ) (direction : Int) : ℚ :=
  next_open + next_open * (cfg.slippage_bps / 10000) * direction

/-- `ExecutionModel.commission`. -/
def commission (cfg : Config) : ℚ :=
  cfg.commission_per_trade

/-- `StopTargetEngine.check_stop_target` (the `hit_stop`/`hit_target`
booleans are modelled as decidable propositions). -/
def check_stop_target (bar_high bar_low : ℚ) (stop target : Option ℚ) (direction : Int) :
    Option (String × ℚ) :=
  if stop = none ∧ target = none then none
  else if direction = 1 then
    let hit_stop : Prop := stop ≠ none ∧ bar_low ≤ stop.getD 0
    let hit_target : Prop := target ≠ none ∧ bar_high ≥ target.getD 0
    if hit_stop ∧ hit_target then some ("stop", stop.getD 0)
    else if hit_stop then some ("stop", stop.getD 0)
    else if hit_target then some ("target", target.getD 0)
    else none
  else
    let hit_stop : Prop := stop ≠ none ∧ bar_high ≥ stop.getD 0
    let hit_target : Prop := target ≠ none ∧ bar_low ≤ target.getD 0
    if hit_stop ∧ hit_target then some ("stop", stop.getD 0)
    else if hit_stop then some ("stop", stop.getD 0)
    else if hit_target then some ("target", target.getD 0)
    else none

/-- The mutable position/equity/log state of a `Backtester`. -/
structure BTState where
  equity : ℚ
  position : Int
  size : ℚ
  entry_price : Option ℚ
  entry_time : Option Nat
  stop : Option ℚ
  target : Option ℚ
  trades : List Trade
  equity_curve : List EquityPoint
deriving Repr, DecidableEq, Inhabited

/-- Initial state set by `Backtester.__init__`. -/
def initState (cfg : Config) : BTState :=
  { equity := cfg.initial_equity
    position := 0
    size := 0
    entry_price := none
    entry_time := none
    stop := none
    target := none
    trades := []
    equity_curve := [] }

/-- Row access `df.iloc[i]` (in-range throughout the engine loop). -/
def bar (bars : List Bar) (i : Nat) : Bar :=
  bars.getD i default

/-- `Backtester._in_session`: inclusive time-of-day window check. -/
def _in_session (cfg : Config) (ts : Nat) : Prop :=
  cfg.session_start ≤ ts % 1440 ∧ ts % 1440 ≤ cfg.session_end

instance (cfg : Config) (ts : Nat) : Decidable (_in_session cfg ts) :=
  instDecidableAnd

/-- `Backtester._position_sizing`. -/
def _position_sizing (cfg : Config) (equity : ℚ) (price : ℚ) (atr : Option ℚ) : ℚ :=
  match atr with
  | none => 0
  | some a =>
    if a = 0 then 0
    else
      let risk_capital := equity * cfg.risk_fraction
      let units := risk_capital / a
      let max_units := (equity * cfg.max_leverage) / price
      min units max_units

/-- `Backtester._enter`. -/
def _enter (cfg : Config) (bars : List Bar) (i : Nat) (direction : Int) (st : BTState) :
    BTState :=
  let next_open := (bar bars i).open_
  let price := next_open_with_slippage cfg next_open direction
  let atr := (bar bars i).atr
  let units := _position_sizing cfg st.equity price atr
  if units ≤ 0 then st
  else
    let levels : Option ℚ × Option ℚ :=
      match atr with
      | some a =>
        if 0 < a then
          if direction = 1 then (some (price - a), some (price + 3/2 * a))
          else (some (price + a), some (price - 3/2 * a))
        else (none, none)
      | none => (none, none)
    { st with
      position := direction
      size := units
      entry_price := some price
      entry_time := some (bar bars i).datetime
      stop := levels.1
      target := levels.2
      equity := st.equity - commission cfg }

/-- `Backtester._exit`. -/
def _exit (cfg : Config) (bars : List Bar) (i : Nat) (reason : String)
    (price_override : Option ℚ) (st : BTState) : BTState :=
  if st.position = 0 then st
  else
    let next_open := (bar bars i).open_
    let price := price_override.getD (next_open_with_slippage cfg next_open (-st.position))
    let pnl := (price - st.entry_price.getD 0) * st.size * (st.position : ℚ)
    { st with
      equity := st.equity + pnl - commission cfg
      trades := st.trades ++
        [{ entry_time := st.entry_time.getD 0
           exit_time := some (bar bars i).datetime
           direction := st.position
           entry_price := st.entry_price.getD 0
           exit_price := some price
           size := st.size
           pnl := some pnl
           reason := reason }]
      position := 0
      size := 0
      entry_price := none
      entry_time := none
      stop := none
      target := none }

/-- The stop/target phase of the loop body: if a position is open and
`check_stop_target` reports a fill, exit at the triggered level with the
corresponding reason. -/
def forcedFill (cfg : Config) (bars : List Bar) (st : BTState) (i : Nat) : BTState :=
  if st.position ≠ 0 then
    match check_stop_target (bar bars i).high (bar bars i).low st.stop st.target
        st.position with
    | some kl => _exit cfg bars i kl.1 (some kl.2) st
    | none => st
  else st

/-- The strategy-signal dispatch of the loop body. -/
def applySignal (cfg : Config) (bars : List Bar) (i : Nat) (sig : String)
    (st : BTState) : BTState :=
  if sig = "enter_long" ∧ st.position = 0 then _enter cfg bars i 1 st
  else if sig = "enter_short" ∧ st.position = 0 then _enter cfg bars i (-1) st
  else if sig = "exit" ∧ st.position ≠ 0 then _exit cfg bars i "exit" none st
  else st

/-- The state changes of one iteration of the `for i in range(1, len(self.df)-1)`
loop in `Backtester.run` for bar index `i`, except for the equity-curve
append (which the loop body performs, with the bar's timestamp and the
post-step equity, on both the out-of-session path and the in-session
path; it is factored out into `step` below). -/
def stepCore (cfg : Config) (strategy : Nat → List Bar → String) (bars : List Bar)
    (st : BTState) (i : Nat) : BTState :=
  if ¬ _in_session cfg (bar bars i).datetime then
    if st.position ≠ 0 then _exit cfg bars i "session_end" none st else st
  else applySignal cfg bars i (strategy i bars) (forcedFill cfg bars st i)

/-- One full iteration of the main loop: the state changes of `stepCore`
followed by the equity-curve append executed on every path of the loop
body. -/
def step (cfg : Config) (strategy : Nat → List Bar → String) (bars : List Bar)
    (st : BTState) (i : Nat) : BTState :=
  let c := stepCore cfg strategy bars st i
  { c with equity_curve := c.equity_curve ++ [⟨(bar bars i).datetime, c.equity⟩] }

/-- The state after the main loop of `Backtester.run`, before the final
forced close. -/
def loopState (cfg : Config) (strategy : Nat → List Bar → String) (bars : List Bar) :
    BTState :=
  (List.range' 1 (bars.length - 2)).foldl (step cfg strategy bars) (initState cfg)

/-- The `Backtester` state at the end of `run` (after the final forced
close at the last bar). -/
def runState (cfg : Config) (strategy : Nat → List Bar → String) (bars : List Bar) :
    BTState :=
  _exit cfg bars (bars.length - 1) "final_close" none (loopState cfg strategy bars)

/-- The dictionary returned by `Backtester.run`. -/
structure RunResult where
  equity_curve : List EquityPoint
  trades : List Trade
  final_equity : ℚ
  return_pct : ℚ
deriving Repr, DecidableEq, Inhabited

/-- `Backtester.run`. -/
def run (cfg : Config) (strategy : Nat → List Bar → String) (bars : List Bar) : RunResult :=
  let st := runState cfg strategy bars
  { equity_curve := st.equity_curve
    trades := st.trades
    final_equity := st.equity
    return_pct := (st.equity / cfg.initial_equity - 1) * 100 }

/-- The state reached after the first `k` iterations of the main loop. -/
def stepsUpTo (cfg : Config) (strategy : Nat → List Bar → String) (bars : List Bar)
    (k : Nat) : BTState :=
  ((List.range' 1 (bars.length - 2)).take k).foldl (step cfg strategy bars) (initState cfg)

/-!
### The indicator preprocessor's volatility measure

`Backtester._prepare_indicators` computes `atr` as the `atr_lookback`-bar
rolling mean (full windows only) of the true range
`max(high − low, |high − prev_close|, |low − prev_close|)`; at index 0 the
two previous-close terms are NaN and the row-wise max ignores them.
-/

/-- The true range at index `i` of the raw high/low/close columns. -/
def trueRange (highs lows closes : List ℚ) (i : Nat) : ℚ :=
  let h := highs.getD i 0
  let l := lows.getD i 0
  if i = 0 then |h - l|
  else max (|h - l|) (max (|h - closes.getD (i - 1) 0|) (|l - closes.getD (i - 1) 0|))

/-- The `atr` column value at index `i`: `none` when fewer than `n` true
ranges are available (the rolling window is incomplete), otherwise the
mean of the last `n` true ranges. -/
def atrAt (highs lows closes : List ℚ) (n : Nat) (i : Nat) : Option ℚ :=
  if i + 1 < n then none
  else some ((((List.range n).map fun j => trueRange highs lows closes (i + 1 - n + j)).sum) / n)

/-! ### Basic lemmas about the engine's transitions -/

theorem exit_position (cfg : Config) (bars : List Bar) (i : Nat) (r : String)
    (o : Option ℚ) (st : BTState) : (_exit cfg bars i r o st).position = 0 := by
  unfold _exit
  split <;> simp_all

theorem exit_flat (cfg : Config) (bars : List Bar) (i : Nat) (r : String)
    (o : Option ℚ) (st : BTState) (h : st.position ≠ 0) :
    (_exit cfg bars i r o st).size = 0 ∧ (_exit cfg bars i r o st).entry_price = none ∧
    (_exit cfg bars i r o st).entry_time = none ∧ (_exit cfg bars i r o st).stop = none ∧
    (_exit cfg bars i r o st).target = none := by
  unfold _exit
  split <;> simp_all

theorem exit_of_flat (cfg : Config) (bars : List Bar) (i : Nat) (r : String)
    (o : Option ℚ) (st : BTState) (h : st.position = 0) :
    _exit cfg bars i r o st = st := by
  unfold _exit
  simp [h]

theorem exit_curve (cfg : Config) (bars : List Bar) (i : Nat) (r : String)
    (o : Option ℚ) (st : BTState) :
    (_exit cfg bars i r o st).equity_curve = st.equity_curve := by
  unfold _exit
  split <;> rfl

theorem enter_curve (cfg : Config) (bars : List Bar) (i : Nat) (d : Int) (st : BTState) :
    (_enter cfg bars i d st).equity_curve = st.equity_curve := by
  unfold _enter
  by_cases h : _position_sizing cfg st.equity
      (next_open_with_slippage cfg (bar bars i).open_ d) (bar bars i).atr ≤ 0 <;>
    simp [h]

theorem enter_trades (cfg : Config) (bars : List Bar) (i : Nat) (d : Int) (st : BTState) :
    (_enter cfg bars i d st).trades = st.trades := by
  unfold _enter
  by_cases h : _position_sizing cfg st.equity
      (next_open_with_slippage cfg (bar bars i).open_ d) (bar bars i).atr ≤ 0 <;>
    simp [h]

theorem enter_skip (cfg : Config) (bars : List Bar) (i : Nat) (d : Int) (st : BTState)
    (h : _position_sizing cfg st.equity
      (next_open_with_slippage cfg (bar bars i).open_ d) (bar bars i).atr ≤ 0) :
    _enter cfg bars i d st = st := by
  unfold _enter
  simp [h]

theorem forcedFill_curve (cfg : Config) (bars : List Bar) (st : BTState) (i : Nat) :
    (forcedFill cfg bars st i).equity_curve = st.equity_curve := by
  unfold forcedFill
  split
  · split
    · exact exit_curve ..
    · rfl
  · rfl

theorem applySignal_curve (cfg : Config) (bars : List Bar) (i : Nat) (sig : String)
    (st : BTState) :
    (applySignal cfg bars i sig st).equity_curve = st.equity_curve := by
  unfold applySignal
  split
  · exact enter_curve ..
  · split
    · exact enter_curve ..
    · split
      · exact exit_curve ..
      · rfl

theorem stepCore_curve (cfg : Config) (strat : Nat → List Bar → String) (bars : List Bar)
    (st : BTState) (i : Nat) :
    (stepCore cfg strat bars st i).equity_curve = st.equity_curve := by
  unfold stepCore
  split
  · split
    · exact exit_curve ..
    · rfl
  · rw [applySignal_curve, forcedFill_curve]

theorem step_curve (cfg : Config) (strat : Nat → List Bar → String) (bars : List Bar)
    (st : BTState) (i : Nat) :
    (step cfg strat bars st i).equity_curve =
      st.equity_curve ++
        [⟨(bar bars i).datetime, (step cfg strat bars st i).equity⟩] := by
  unfold step
  dsimp only
  rw [stepCore_curve]

theorem step_preserves (cfg : Config) (strat : Nat → List Bar → String) (bars : List Bar)
    (P : BTState → Prop)
    (hEnter : ∀ i d st, (d = 1 ∨ d = -1) → st.position = 0 → P st →
      P (_enter cfg bars i d st))
    (hExit : ∀ i r o st, P st → P (_exit cfg bars i r o st))
    (hCurve : ∀ st l, P st → P { st with equity_curve := st.equity_curve ++ l })
    (st : BTState) (i : Nat) (hP : P st) : P (step cfg strat bars st i) := by
  have hFill : ∀ st i, P st → P (forcedFill cfg bars st i) := by
    intro st i hP
    unfold forcedFill
    split
    · split
      · exact hExit _ _ _ _ hP
      · exact hP
    · exact hP
  have hSig : ∀ i sig st, P st → P (applySignal cfg bars i sig st) := by
    intro i sig st hP
    unfold applySignal
    split
    · exact hEnter _ _ _ (Or.inl rfl) (by simp_all) hP
    · split
      · exact hEnter _ _ _ (Or.inr rfl) (by simp_all) hP
      · split
        · exact hExit _ _ _ _ hP
        · exact hP
  have hCore : P (stepCore cfg strat bars st i) := by
    unfold stepCore
    split
    · split
      · exact hExit _ _ _ _ hP
      · exact hP
    · exact hSig _ _ _ (hFill _ _ hP)
  exact hCurve _ _ hCore

theorem foldl_step_preserves (cfg : Config) (strat : Nat → List Bar → String)
    (bars : List Bar) (P : BTState → Prop)
    (hEnter : ∀ i d st, (d = 1 ∨ d = -1) → st.position = 0 → P st →
      P (_enter cfg bars i d st))
    (hExit : ∀ i r o st, P st → P (_exit cfg bars i r o st))
    (hCurve : ∀ st l, P st → P { st with equity_curve := st.equity_curve ++ l }) :
    ∀ (l : List Nat) (st : BTState), P st → P (l.foldl (step cfg strat bars) st) := by
  intro l
  induction l with
  | nil => intro st hP; exact hP
  | cons j l ih =>
    intro st hP
    exact ih _ (step_preserves cfg strat bars P hEnter hExit hCurve st j hP)

/-! ### Accounting invariant -/

/-- Sum of the pnl fields of a trade log. -/
def sumPnl (ts : List Trade) : ℚ :=
  (ts.map fun t => t.pnl.getD 0).sum

/-- Number of commissions outstanding: one entry commission has been paid,
with no matching exit commission yet, exactly while a position is open. -/
def openCom (st : BTState) : ℚ :=
  if st.position = 0 then 0 else 1

/-- The equity account always equals the initial equity plus realized pnl
minus all commissions charged so far. -/
def AccInv (cfg : Config) (st : BTState) : Prop :=
  st.equity = cfg.initial_equity + sumPnl st.trades
    - cfg.commission_per_trade * (2 * st.trades.length + openCom st)

/-- A trade record whose pnl equals `(exit_price − entry_price) × size ×
direction`. -/
def TradeEq (t : Trade) : Prop :=
  ∃ xp p, t.exit_price = some xp ∧ t.pnl = some p ∧
    p = (xp - t.entry_price) * t.size * (t.direction : ℚ)

theorem sumPnl_append (l : List Trade) (t : Trade) :
    sumPnl (l ++ [t]) = sumPnl l + t.pnl.getD 0 := by
  simp [sumPnl]

theorem acc_initState (cfg : Config) :
    AccInv cfg (initState cfg) ∧ ∀ t ∈ (initState cfg).trades, TradeEq t := by
  constructor
  · simp [AccInv, initState, sumPnl, openCom]
  · intro t ht
    simp [initState] at ht

theorem acc_enter (cfg : Config) (bars : List Bar) (i : Nat) (d : Int) (st : BTState)
    (hd : d = 1 ∨ d = -1) (hpos : st.position = 0)
    (h : AccInv cfg st ∧ ∀ t ∈ st.trades, TradeEq t) :
    AccInv cfg (_enter cfg bars i d st) ∧ ∀ t ∈ (_enter cfg bars i d st).trades, TradeEq t := by
  obtain ⟨hacc, htr⟩ := h
  unfold _enter
  by_cases hu : _position_sizing cfg st.equity
      (next_open_with_slippage cfg (bar bars i).open_ d) (bar bars i).atr ≤ 0
  · simpa [hu] using ⟨hacc, htr⟩
  · simp only [hu, if_false]
    refine ⟨?_, htr⟩
    have hd0 : d ≠ 0 := by rcases hd with h | h <;> simp [h]
    unfold AccInv at hacc ⊢
    simp only [openCom, hpos, if_pos] at hacc
    simp only [openCom, hd0, if_neg, commission]
    rw [hacc]
    simp only [if_false]
    ring

theorem acc_exit (cfg : Config) (bars : List Bar) (i : Nat) (r : String) (o : Option ℚ)
    (st : BTState) (h : AccInv cfg st ∧ ∀ t ∈ st.trades, TradeEq t) :
    AccInv cfg (_exit cfg bars i r o st) ∧ ∀ t ∈ (_exit cfg bars i r o st).trades, TradeEq t := by
  obtain ⟨hacc, htr⟩ := h
  unfold _exit
  by_cases hpos : st.position = 0
  · simpa [hpos] using ⟨hacc, htr⟩
  · simp only [hpos, if_neg, if_false]
    constructor
    · unfold AccInv at hacc ⊢
      simp only [openCom, hpos, if_neg, if_false] at hacc
      simp only [openCom, if_pos, sumPnl_append, List.length_append,
        List.length_singleton, commission]
      simp only [Option.getD_some]
      rw [hacc]
      push_cast
      ring
    · intro t ht
      simp only [List.mem_append, List.mem_singleton] at ht
      rcases ht with ht | ht
      · exact htr t ht
      · subst ht
        exact ⟨_, _, rfl, rfl, rfl⟩

theorem acc_curve (cfg : Config) (st : BTState) (l : List EquityPoint)
    (h : AccInv cfg st ∧ ∀ t ∈ st.trades, TradeEq t) :
    AccInv cfg { st with equity_curve := st.equity_curve ++ l } ∧
      ∀ t ∈ ({ st with equity_curve := st.equity_curve ++ l } : BTState).trades, TradeEq t := by
  obtain ⟨hacc, htr⟩ := h
  exact ⟨hacc, htr⟩

theorem acc_runState (cfg : Config) (strat : Nat → List Bar → String) (bars : List Bar) :
    AccInv cfg (runState cfg strat bars) ∧
      ∀ t ∈ (runState cfg strat bars).trades, TradeEq t := by
  have hLoop : AccInv cfg (loopState cfg strat bars) ∧
      ∀ t ∈ (loopState cfg strat bars).trades, TradeEq t := by
    unfold loopState
    exact foldl_step_preserves cfg strat bars
      (fun st => AccInv cfg st ∧ ∀ t ∈ st.trades, TradeEq t)
      (fun i d st hd hpos h => acc_enter cfg bars i d st hd hpos h)
      (fun i r o st h => acc_exit cfg bars i r o st h)
      (fun st l h => acc_curve cfg st l h)
      _ _ (acc_initState cfg)
  exact acc_exit cfg bars _ _ _ _ hLoop

/-! ### Flatness invariant -/

/-- When the position is flat all position fields are reset / never set. -/
def FlatOk (st : BTState) : Prop :=
  st.position = 0 → st.size = 0 ∧ st.entry_price = none ∧ st.entry_time = none ∧
    st.stop = none ∧ st.target = none

theorem flat_enter (cfg : Config) (bars : List Bar) (i : Nat) (d : Int) (st : BTState)
    (hd : d = 1 ∨ d = -1) (_hpos : st.position = 0) (h : FlatOk st) :
    FlatOk (_enter cfg bars i d st) := by
  unfold _enter
  by_cases hu : _position_sizing cfg st.equity
      (next_open_with_slippage cfg (bar bars i).open_ d) (bar bars i).atr ≤ 0
  · simpa [hu] using h
  · have hd0 : d ≠ 0 := by rcases hd with h | h <;> simp [h]
    intro hc
    simp only [hu, if_false] at hc
    exact absurd hc hd0

theorem flat_exit (cfg : Config) (bars : List Bar) (i : Nat) (r : String) (o : Option ℚ)
    (st : BTState) (h : FlatOk st) : FlatOk (_exit cfg bars i r o st) := by
  unfold _exit
  by_cases hpos : st.position = 0
  · simpa [hpos] using h
  · intro _
    simp [hpos]

theorem flat_runState (cfg : Config) (strat : Nat → List Bar → String) (bars : List Bar) :
    FlatOk (runState cfg strat bars) := by
  have hLoop : FlatOk (loopState cfg strat bars) := by
    unfold loopState
    refine foldl_step_preserves cfg strat bars FlatOk
      (fun i d st hd hpos h => flat_enter cfg bars i d st hd hpos h)
      (fun i r o st h => flat_exit cfg bars i r o st h) ?_ _ _ ?_
    · intro st l h hc
      exact h hc
    · intro h
      simp [initState]
  exact flat_exit cfg bars _ _ _ _ hLoop

/-! ### Equity-curve lemmas -/

theorem foldl_step_curve_map (cfg : Config) (strat : Nat → List Bar → String)
    (bars : List Bar) :
    ∀ (l : List Nat) (st : BTState),
      ((l.foldl (step cfg strat bars) st).equity_curve).map EquityPoint.datetime =
        st.equity_curve.map EquityPoint.datetime ++ l.map fun i => (bar bars i).datetime := by
  intro l
  induction l with
  | nil => intro st; simp
  | cons j l ih =>
    intro st
    simp only [List.foldl_cons, List.map_cons]
    rw [ih, step_curve]
    simp

theorem step_getLast (cfg : Config) (strat : Nat → List Bar → String) (bars : List Bar)
    (st : BTState) (i : Nat) :
    (step cfg strat bars st i).equity_curve.getLast? =
      some ⟨(bar bars i).datetime, (step cfg strat bars st i).equity⟩ := by
  unfold step
  dsimp only
  simp

theorem foldl_step_lastEq (cfg : Config) (strat : Nat → List Bar → String)
    (bars : List Bar) :
    ∀ (l : List Nat) (st : BTState),
      (∀ p, st.equity_curve.getLast? = some p → p.equity = st.equity) →
      ∀ p, ((l.foldl (step cfg strat bars) st).equity_curve).getLast? = some p →
        p.equity = (l.foldl (step cfg strat bars) st).equity := by
  intro l
  induction l with
  | nil => intro st h; exact h
  | cons j l ih =>
    intro st _
    refine ih _ ?_
    intro p hp
    rw [step_getLast] at hp
    cases hp
    rfl

/-! ### Open-position invariant -/

/-- Whenever a position is open, its stop and target are set from the
entry price and a positive ATR value in the direction-dependent pattern
of `_enter`. -/
def OpenOk (st : BTState) : Prop :=
  st.position ≠ 0 → ∃ p a, 0 < a ∧ st.entry_price = some p ∧
    ((st.position = 1 ∧ st.stop = some (p - a) ∧ st.target = some (p + 3/2 * a)) ∨
     (st.position = -1 ∧ st.stop = some (p + a) ∧ st.target = some (p - 3/2 * a)))

/-- Every ATR value carried by the bar list is nonnegative (`none`, the
NaN case, counts as absent). -/
def AtrOk (bars : List Bar) : Prop :=
  ∀ b ∈ bars, 0 ≤ b.atr.getD 0

theorem bar_atrOk (bars : List Bar) (h : AtrOk bars) (i : Nat) :
    0 ≤ ((bar bars i).atr).getD 0 := by
  unfold bar
  by_cases hi : i < bars.length
  · rw [List.getD_eq_getElem bars default hi]
    exact h _ (bars.getElem_mem hi)
  · rw [List.getD_eq_default bars default (le_of_not_lt hi)]
    norm_num [default]

theorem sizing_pos_atr (cfg : Config) (equity price : ℚ) (atr : Option ℚ)
    (hnn : 0 ≤ atr.getD 0) (hpos : 0 < _position_sizing cfg equity price atr) :
    ∃ a, atr = some a ∧ 0 < a := by
  cases atr with
  | none => simp [_position_sizing] at hpos
  | some a =>
    by_cases ha : a = 0
    · simp [_position_sizing, ha] at hpos
    · exact ⟨a, rfl, lt_of_le_of_ne (by simpa using hnn) (Ne.symm ha)⟩

theorem open_enter (cfg : Config) (bars : List Bar) (hA : AtrOk bars) (i : Nat) (d : Int)
    (st : BTState) (hd : d = 1 ∨ d = -1) (h : OpenOk st) :
    OpenOk (_enter cfg bars i d st) := by
  unfold _enter
  by_cases hu : _position_sizing cfg st.equity
      (next_open_with_slippage cfg (bar bars i).open_ d) (bar bars i).atr ≤ 0
  · simpa [hu] using h
  · have hpos : 0 < _position_sizing cfg st.equity
        (next_open_with_slippage cfg (bar bars i).open_ d) (bar bars i).atr :=
      lt_of_not_le hu
    obtain ⟨a, ha, hapos⟩ :=
      sizing_pos_atr cfg st.equity _ _ (bar_atrOk bars hA i) hpos
    intro _
    simp only [hu, if_false]
    rcases hd with hd | hd
    · subst hd
      refine ⟨next_open_with_slippage cfg (bar bars i).open_ 1, a, hapos, rfl, Or.inl ?_⟩
      simp [ha, hapos]
    · subst hd
      refine ⟨next_open_with_slippage cfg (bar bars i).open_ (-1), a, hapos, rfl, Or.inr ?_⟩
      simp [ha, hapos]

theorem open_exit (cfg : Config) (bars : List Bar) (i : Nat) (r : String) (o : Option ℚ)
    (st : BTState) : OpenOk (_exit cfg bars i r o st) := by
  intro hc
  exact absurd (exit_position cfg bars i r o st) hc

/-! ### Nonnegativity of the volatility measure -/

theorem trueRange_nonneg (highs lows closes : List ℚ) (i : Nat) :
    0 ≤ trueRange highs lows closes i := by
  unfold trueRange
  split
  · exact abs_nonneg _
  · exact le_max_of_le_left (abs_nonneg _)

theorem atrAt_nonneg (highs lows closes : List ℚ) (n i : Nat) (a : ℚ)
    (h : atrAt highs lows closes n i = some a) : 0 ≤ a := by
  unfold atrAt at h
  split at h
  · exact absurd h (by simp)
  · have ha : a = (((List.range n).map
        fun j => trueRange highs lows closes (i + 1 - n + j)).sum) / n := by
      injection h with h
      exact h.symm
    subst ha
    refine div_nonneg (List.sum_nonneg ?_) (by positivity)
    intro x hx
    obtain ⟨j, _, hj⟩ := List.mem_map.mp hx
    exact hj ▸ trueRange_nonneg highs lows closes _

/-- The `atr` column produced by `_prepare_indicators` (possibly after the
`dropna` row filtering) only ever carries values of `atrAt`, so every bar
list whose `atr` fields come from the pipeline satisfies `AtrOk`. -/
theorem atrOk_of_pipeline (bars : List Bar) (highs lows closes : List ℚ) (n : Nat)
    (h : ∀ b ∈ bars, b.atr = none ∨ ∃ i, b.atr = atrAt highs lows closes n i) :
    AtrOk bars := by
  intro b hb
  rcases h b hb with hn | ⟨i, hi⟩
  · simp [hn]
  · rw [hi]
    cases hv : atrAt highs lows closes n i with
    | none => simp
    | some a => simpa using atrAt_nonneg highs lows closes n i a hv

/-! ### Further transition lemmas -/

theorem runState_position (cfg : Config) (strat : Nat → List Bar → String)
    (bars : List Bar) : (runState cfg strat bars).position = 0 := by
  unfold runState
  exact exit_position ..

theorem exit_trades_append (cfg : Config) (bars : List Bar) (i : Nat) (r : String)
    (o : Option ℚ) (st : BTState) (h : st.position ≠ 0) :
    (_exit cfg bars i r o st).trades = st.trades ++
      [{ entry_time := st.entry_time.getD 0
         exit_time := some (bar bars i).datetime
         direction := st.position
         entry_price := st.entry_price.getD 0
         exit_price := some (o.getD (next_open_with_slippage cfg (bar bars i).open_
           (-st.position)))
         size := st.size
         pnl := some ((o.getD (next_open_with_slippage cfg (bar bars i).open_
           (-st.position)) - st.entry_price.getD 0) * st.size * (st.position : ℚ))
         reason := r }] := by
  unfold _exit
  simp [h]

/-! ### Concrete fixtures used by witnesses and counterexamples -/

/-- Zero slippage, commission 1, all-day session. -/
def cfgW : Config := ⟨0, 1, 1000, 1/100, 1000, 0, 1439⟩

/-- Enter long once, at the first processed bar. -/
def stratW : Nat → List Bar → String := fun i _ => if i = 1 then "enter_long" else "hold"

/-- Never trade. -/
def stratH : Nat → List Bar → String := fun _ _ => "hold"

/-- Four flat-priced bars; neither stop nor target is hit, so the entry
opened at bar 1 survives to the final forced close. -/
def barsW : List Bar :=
  [⟨0, 10, 10, 10, 10, some 1⟩, ⟨1, 10, 10, 10, 10, some 1⟩,
   ⟨2, 10, 102/10, 98/10, 10, some 1⟩, ⟨3, 10, 10, 10, 10, some 1⟩]

/-- Zero slippage and commission, all-day session. -/
def cfgX : Config := ⟨0, 0, 1000, 1/100, 1000, 0, 1439⟩

/-- Enter long at the first and second processed bars. -/
def stratX : Nat → List Bar → String :=
  fun i _ => if i = 1 ∨ i = 2 then "enter_long" else "hold"

/-- Bar 2 gaps down through the stop placed at bar 1 (entry 10, stop 9). -/
def barsX : List Bar :=
  [⟨0, 10, 10, 10, 10, some 1⟩, ⟨1, 10, 10, 10, 10, some 1⟩,
   ⟨2, 9, 92/10, 89/10, 9, some 1⟩, ⟨3, 19/2, 19/2, 19/2, 19/2, some 1⟩]

/-- A single bar whose ATR value is exactly zero. -/
def barsZ : List Bar := [⟨0, 10, 10, 10, 10, some 0⟩]

/-- Zero slippage, commission 1, session restricted to [500, 600]. -/
def cfgS : Config := ⟨0, 1, 1000, 1/100, 2, 500, 600⟩

/-! ### Projections of `run` -/

theorem run_trades (cfg : Config) (strat : Nat → List Bar → String) (bars : List Bar) :
    (run cfg strat bars).trades = (runState cfg strat bars).trades := rfl

theorem run_final_equity (cfg : Config) (strat : Nat → List Bar → String)
    (bars : List Bar) :
    (run cfg strat bars).final_equity = (runState cfg strat bars).equity := rfl

theorem run_curve (cfg : Config) (strat : Nat → List Bar → String) (bars : List Bar) :
    (run cfg strat bars).equity_curve = (runState cfg strat bars).equity_curve := rfl

/-! ### Evaluation of the fixtures -/

theorem loopW_eval : loopState cfgW stratW barsW =
    ⟨999, 1, 10, some 10, some 1, some 9, some (23/2), [], [⟨1, 999⟩, ⟨2, 999⟩]⟩ := by
  have h1 : step cfgW stratW barsW (initState cfgW) 1 =
      ⟨999, 1, 10, some 10, some 1, some 9, some (23/2), [], [⟨1, 999⟩]⟩ := by
    norm_num [step, stepCore, forcedFill, applySignal, _enter, _exit, _in_session,
      _position_sizing, next_open_with_slippage, commission, check_stop_target,
      initState, bar, cfgW, stratW, barsW, min_def]
  have h2 : step cfgW stratW barsW
      ⟨999, 1, 10, some 10, some 1, some 9, some (23/2), [], [⟨1, 999⟩]⟩ 2 =
      ⟨999, 1, 10, some 10, some 1, some 9, some (23/2), [], [⟨1, 999⟩, ⟨2, 999⟩]⟩ := by
    norm_num [step, stepCore, forcedFill, applySignal, _enter, _exit, _in_session,
      _position_sizing, next_open_with_slippage, commission, check_stop_target,
      bar, cfgW, stratW, barsW, min_def]
    all_goals try norm_num
    all_goals try simp
  unfold loopState
  rw [show barsW.length - 2 = 2 by norm_num [barsW]]
  norm_num [List.range', h1, h2]

theorem runW_eval : runState cfgW stratW barsW =
    ⟨998, 0, 0, none, none, none, none,
     [⟨1, some 3, 1, 10, some 10, 10, some 0, "final_close"⟩],
     [⟨1, 999⟩, ⟨2, 999⟩]⟩ := by
  unfold runState
  rw [show barsW.length - 1 = 3 by norm_num [barsW], loopW_eval]
  norm_num [_exit, next_open_with_slippage, commission, bar, cfgW, barsW]

theorem loopX_eval : loopState cfgX stratX barsX =
    ⟨990, 1, 99/10, some 9, some 2, some 8, some (21/2),
     [⟨1, some 2, 1, 10, some 9, 10, some (-10), "stop"⟩],
     [⟨1, 1000⟩, ⟨2, 990⟩]⟩ := by
  have h1 : step cfgX stratX barsX (initState cfgX) 1 =
      ⟨1000, 1, 10, some 10, some 1, some 9, some (23/2), [], [⟨1, 1000⟩]⟩ := by
    norm_num [step, stepCore, forcedFill, applySignal, _enter, _exit, _in_session,
      _position_sizing, next_open_with_slippage, commission, check_stop_target,
      initState, bar, cfgX, stratX, barsX, min_def]
  have h2 : step cfgX stratX barsX
      ⟨1000, 1, 10, some 10, some 1, some 9, some (23/2), [], [⟨1, 1000⟩]⟩ 2 =
      ⟨990, 1, 99/10, some 9, some 2, some 8, some (21/2),
       [⟨1, some 2, 1, 10, some 9, 10, some (-10), "stop"⟩],
       [⟨1, 1000⟩, ⟨2, 990⟩]⟩ := by
    norm_num [step, stepCore, forcedFill, applySignal, _enter, _exit, _in_session,
      _position_sizing, next_open_with_slippage, commission, check_stop_target,
      bar, cfgX, stratX, barsX, min_def]
    all_goals try norm_num
    all_goals try simp
    all_goals try norm_num
  unfold loopState
  rw [show barsX.length - 2 = 2 by norm_num [barsX]]
  norm_num [List.range', h1, h2]

theorem runX_eval : runState cfgX stratX barsX =
    ⟨19899/20, 0, 0, none, none, none, none,
     [⟨1, some 2, 1, 10, some 9, 10, some (-10), "stop"⟩,
      ⟨2, some 3, 1, 9, some (19/2), 99/10, some (99/20), "final_close"⟩],
     [⟨1, 1000⟩, ⟨2, 990⟩]⟩ := by
  unfold runState
  rw [show barsX.length - 1 = 3 by norm_num [barsX], loopX_eval]
  norm_num [_exit, next_open_with_slippage, commission, bar, cfgX, barsX]

theorem loopH_eval : loopState cfgW stratH barsW =
    ⟨1000, 0, 0, none, none, none, none, [], [⟨1, 1000⟩, ⟨2, 1000⟩]⟩ := by
  have h1 : step cfgW stratH barsW (initState cfgW) 1 =
      ⟨1000, 0, 0, none, none, none, none, [], [⟨1, 1000⟩]⟩ := by
    norm_num [step, stepCore, forcedFill, applySignal, _in_session,
      initState, bar, cfgW, stratH, barsW]
    all_goals try norm_num
    all_goals try simp
  have h2 : step cfgW stratH barsW
      ⟨1000, 0, 0, none, none, none, none, [], [⟨1, 1000⟩]⟩ 2 =
      ⟨1000, 0, 0, none, none, none, none, [], [⟨1, 1000⟩, ⟨2, 1000⟩]⟩ := by
    norm_num [step, stepCore, forcedFill, applySignal, _in_session,
      bar, cfgW, stratH, barsW]
    all_goals try norm_num
    all_goals try simp
  unfold loopState
  rw [show barsW.length - 2 = 2 by norm_num [barsW]]
  norm_num [List.range', h1, h2]

theorem runH_eval : runState cfgW stratH barsW =
    ⟨1000, 0, 0, none, none, none, none, [], [⟨1, 1000⟩, ⟨2, 1000⟩]⟩ := by
  unfold runState
  rw [loopH_eval]
  norm_num [_exit]

/-- An open long position used by the session-close witness. -/
def stS : BTState := ⟨1000, 1, 10, some 10, some 1, some 9, some (23/2), [], []⟩

/-! ### Claims -/

/-- C1: every Trade in the log satisfies
pnl = (exit_price − entry_price) × size × direction, and the total equity
change across the run equals the sum of all trades' pnl minus
commission_per_trade × 2 × (number of trades): one commission at entry and
one at exit per round trip, and nothing else changes equity. -/
theorem C1_equity_conservation (cfg : Config) (strat : Nat → List Bar → String)
    (bars : List Bar) :
    (∀ t ∈ (run cfg strat bars).trades, TradeEq t) ∧
    (run cfg strat bars).final_equity - cfg.initial_equity =
      sumPnl (run cfg strat bars).trades -
        cfg.commission_per_trade * (2 * (run cfg strat bars).trades.length) := by
  obtain ⟨hacc, htr⟩ := acc_runState cfg strat bars
  refine ⟨fun t ht => htr t ht, ?_⟩
  show (runState cfg strat bars).equity - cfg.initial_equity =
    sumPnl (runState cfg strat bars).trades -
      cfg.commission_per_trade * (2 * (runState cfg strat bars).trades.length)
  unfold AccInv at hacc
  rw [hacc]
  simp only [openCom, runState_position, if_pos]
  ring

/-- C1 witness: the concrete single-trade run of `cfgW`/`stratW`/`barsW`. -/
theorem C1_equity_conservation_witness :
    TradeEq ⟨1, some 3, 1, 10, some 10, 10, some 0, "final_close"⟩ ∧
    (run cfgW stratW barsW).final_equity - cfgW.initial_equity =
      sumPnl (run cfgW stratW barsW).trades -
        cfgW.commission_per_trade * (2 * (run cfgW stratW barsW).trades.length) :=
  ⟨(C1_equity_conservation cfgW stratW barsW).1 _
      (by rw [run_trades, runW_eval]; simp),
   (C1_equity_conservation cfgW stratW barsW).2⟩

/-- C2: after `run` the position is flat — position 0, size 0, and
entry_price, entry_time, stop and target all null — and any position that
survived the loop is force-closed at the last bar with reason final_close
at the execution-model fill on that bar's open. -/
theorem C2_flat_after_run (cfg : Config) (strat : Nat → List Bar → String)
    (bars : List Bar) :
    (runState cfg strat bars).position = 0 ∧
    (runState cfg strat bars).size = 0 ∧
    (runState cfg strat bars).entry_price = none ∧
    (runState cfg strat bars).entry_time = none ∧
    (runState cfg strat bars).stop = none ∧
    (runState cfg strat bars).target = none ∧
    ((loopState cfg strat bars).position ≠ 0 →
      ∃ t, (runState cfg strat bars).trades = (loopState cfg strat bars).trades ++ [t] ∧
        t.reason = "final_close" ∧
        t.exit_time = some (bar bars (bars.length - 1)).datetime ∧
        t.exit_price = some (next_open_with_slippage cfg
          (bar bars (bars.length - 1)).open_ (-(loopState cfg strat bars).position))) := by
  have hp := runState_position cfg strat bars
  obtain ⟨h1, h2, h3, h4, h5⟩ := flat_runState cfg strat bars hp
  refine ⟨hp, h1, h2, h3, h4, h5, ?_⟩
  intro hopen
  unfold runState
  rw [exit_trades_append cfg bars (bars.length - 1) "final_close" none
    (loopState cfg strat bars) hopen]
  exact ⟨_, rfl, rfl, rfl, rfl⟩

/-- C2 witness: the `cfgW` run, whose position survives the loop and is
force-closed on the final bar. -/
theorem C2_flat_after_run_witness :
    (runState cfgW stratW barsW).position = 0 ∧
    (runState cfgW stratW barsW).size = 0 ∧
    (runState cfgW stratW barsW).entry_price = none ∧
    (runState cfgW stratW barsW).entry_time = none ∧
    (runState cfgW stratW barsW).stop = none ∧
    (runState cfgW stratW barsW).target = none ∧
    (∃ t, (runState cfgW stratW barsW).trades =
        (loopState cfgW stratW barsW).trades ++ [t] ∧
      t.reason = "final_close" ∧
      t.exit_time = some (bar barsW (barsW.length - 1)).datetime ∧
      t.exit_price = some (next_open_with_slippage cfgW
        (bar barsW (barsW.length - 1)).open_ (-(loopState cfgW stratW barsW).position))) := by
  obtain ⟨h1, h2, h3, h4, h5, h6, h7⟩ := C2_flat_after_run cfgW stratW barsW
  exact ⟨h1, h2, h3, h4, h5, h6, h7 (by rw [loopW_eval]; norm_num)⟩

/-- C3 counterexample: in the `cfgX` run, a forced stop exit occurs on the
bar with timestamp 2 (first trade, reason stop, exit_time 2), yet the
strategy is still consulted on that bar and a new long entry opens there
(second trade, entry_time 2) — refuting the claim that the strategy is not
queried on a bar with a forced exit. -/
theorem C3_cex_entry_after_forced_exit :
    (run cfgX stratX barsX).trades =
      [⟨1, some 2, 1, 10, some 9, 10, some (-10), "stop"⟩,
       ⟨2, some 3, 1, 9, some (19/2), 99/10, some (99/20), "final_close"⟩] := by
  rw [run_trades, runX_eval]

/-- C3 (amended): the engine queries the strategy even on a bar where a
forced stop/target exit just occurred: on an in-session bar whose
stop/target check fires, an enter_long signal with positive post-exit
sizing opens a new long position on that same bar. -/
theorem C3_amended_strategy_still_queried (cfg : Config)
    (strat : Nat → List Bar → String) (bars : List Bar) (i : Nat) (st : BTState)
    (hs : _in_session cfg (bar bars i).datetime)
    (hp : st.position ≠ 0) (k : String) (lvl : ℚ)
    (hf : check_stop_target (bar bars i).high (bar bars i).low st.stop st.target
      st.position = some (k, lvl))
    (hsig : strat i bars = "enter_long")
    (hu : 0 < _position_sizing cfg (_exit cfg bars i k (some lvl) st).equity
      (next_open_with_slippage cfg (bar bars i).open_ 1) (bar bars i).atr) :
    (step cfg strat bars st i).position = 1 := by
  have h1 : stepCore cfg strat bars st i =
      _enter cfg bars i 1 (_exit cfg bars i k (some lvl) st) := by
    unfold stepCore forcedFill applySignal
    simp [hs, hp, hf, hsig, exit_position]
  show (stepCore cfg strat bars st i).position = 1
  rw [h1]
  unfold _enter
  rw [if_neg (not_le.mpr hu)]

/-- C3 amended witness: concrete in-session forced-stop bar followed by a
same-bar re-entry. -/
theorem C3_amended_witness :
    (step cfgX stratX barsX ⟨990, 1, 10, some 10, some 1, some 9, some (23/2), [], []⟩
      2).position = 1 :=
  C3_amended_strategy_still_queried cfgX stratX barsX 2 _
    (by norm_num [_in_session, cfgX, bar, barsX])
    (by norm_num)
    "stop" 9
    (by norm_num [check_stop_target, bar, barsX]; simp)
    (by norm_num [stratX])
    (by norm_num [_exit, _position_sizing, next_open_with_slippage, commission,
      cfgX, bar, barsX, min_def])

/-- C4: when both stop and target conditions trigger on the same bar the
result is the stop (for longs and shorts alike), and a null stop never
produces a stop exit nor a null target a target exit. -/
theorem C4_stop_precedence :
    (∀ bh bl s t : ℚ, bl ≤ s → bh ≥ t →
      check_stop_target bh bl (some s) (some t) 1 = some ("stop", s)) ∧
    (∀ bh bl s t : ℚ, bh ≥ s → bl ≤ t →
      check_stop_target bh bl (some s) (some t) (-1) = some ("stop", s)) ∧
    (∀ (bh bl : ℚ) (t : Option ℚ) (d : Int) (x : ℚ),
      check_stop_target bh bl none t d ≠ some ("stop", x)) ∧
    (∀ (bh bl : ℚ) (s : Option ℚ) (d : Int) (x : ℚ),
      check_stop_target bh bl s none d ≠ some ("target", x)) := by
  refine ⟨?_, ?_, ?_, ?_⟩
  · intro bh bl s t h1 h2
    simp [check_stop_target, h1, h2]
  · intro bh bl s t h1 h2
    simp [check_stop_target, h1, h2]
  · intro bh bl t d x
    unfold check_stop_target
    cases t <;> split_ifs <;> simp_all
  · intro bh bl s d x
    unfold check_stop_target
    cases s <;> split_ifs <;> simp_all

/-- C4 witness: a bar crossing both levels exits at the stop. -/
theorem C4_stop_precedence_witness :
    check_stop_target 12 1 (some 2) (some 11) 1 = some ("stop", 2) :=
  C4_stop_precedence.1 12 1 2 11 (by norm_num) (by norm_num)

/-- C5: on a bar outside the session window the strategy is never
consulted (the step result does not depend on the strategy at all), an
equity point is still appended for that bar, and an open position is
closed with reason session_end at the execution-model fill on that bar's
open. -/
theorem C5_session_end (cfg : Config) (strat strat2 : Nat → List Bar → String)
    (bars : List Bar) (i : Nat) (st : BTState)
    (hs : ¬ _in_session cfg (bar bars i).datetime) :
    step cfg strat bars st i = step cfg strat2 bars st i ∧
    (step cfg strat bars st i).equity_curve =
      st.equity_curve ++ [⟨(bar bars i).datetime, (step cfg strat bars st i).equity⟩] ∧
    (st.position ≠ 0 → ∃ t, (step cfg strat bars st i).trades = st.trades ++ [t] ∧
      t.reason = "session_end" ∧
      t.exit_price = some (next_open_with_slippage cfg (bar bars i).open_
        (-st.position))) := by
  refine ⟨?_, step_curve cfg strat bars st i, ?_⟩
  · unfold step stepCore
    simp [hs]
  · intro hp
    have hc : stepCore cfg strat bars st i = _exit cfg bars i "session_end" none st := by
      unfold stepCore
      simp [hs, hp]
    have ht : (step cfg strat bars st i).trades =
        (_exit cfg bars i "session_end" none st).trades := by
      show (stepCore cfg strat bars st i).trades = _
      rw [hc]
    rw [ht, exit_trades_append cfg bars i "session_end" none st hp]
    exact ⟨_, rfl, rfl, rfl⟩

/-- C5 witness: a bar at minute 2 with session [500, 600] forces a
session_end close of an open long, independently of the strategy. -/
theorem C5_session_end_witness :
    step cfgS stratX barsX stS 2 = step cfgS stratH barsX stS 2 ∧
    (step cfgS stratX barsX stS 2).equity_curve =
      stS.equity_curve ++ [⟨(bar barsX 2).datetime, (step cfgS stratX barsX stS 2).equity⟩] ∧
    (∃ t, (step cfgS stratX barsX stS 2).trades = stS.trades ++ [t] ∧
      t.reason = "session_end" ∧
      t.exit_price = some (next_open_with_slippage cfgS (bar barsX 2).open_
        (-stS.position))) := by
  obtain ⟨h1, h2, h3⟩ := C5_session_end cfgS stratX stratH barsX 2 stS
    (by norm_num [_in_session, cfgS, bar, barsX])
  exact ⟨h1, h2, h3 (by norm_num [stS])⟩

/-- C6 counterexample: in the `cfgW` run the position is still open at the
final forced close, whose pnl and exit commission hit equity after the
last equity point: final_equity is 998 while the last retained EquityPoint
carries 999. -/
theorem C6_cex_final_vs_curve :
    (run cfgW stratW barsW).final_equity = 998 ∧
    (run cfgW stratW barsW).equity_curve.getLast? = some ⟨2, 999⟩ ∧
    (998 : ℚ) ≠ 999 := by
  refine ⟨?_, ?_, by norm_num⟩
  · rw [run_final_equity, runW_eval]
  · rw [run_curve, runW_eval]
    rfl

/-- C6 (amended): final_equity is the engine equity after the final forced
close and return_pct = (final_equity / initial_equity − 1) × 100; the
final_equity coincides with the last retained EquityPoint's equity
whenever the position is already flat entering the final close (an actual
final close moves equity after the last point, as the counterexample
shows). -/
theorem C6_amended_final_equity (cfg : Config) (strat : Nat → List Bar → String)
    (bars : List Bar) :
    (run cfg strat bars).final_equity = (runState cfg strat bars).equity ∧
    (run cfg strat bars).return_pct =
      ((run cfg strat bars).final_equity / cfg.initial_equity - 1) * 100 ∧
    ((loopState cfg strat bars).position = 0 →
      ∀ p, (run cfg strat bars).equity_curve.getLast? = some p →
        p.equity = (run cfg strat bars).final_equity) := by
  refine ⟨rfl, rfl, ?_⟩
  intro hflat p hp
  have hrun : runState cfg strat bars = loopState cfg strat bars := by
    unfold runState
    exact exit_of_flat cfg bars (bars.length - 1) "final_close" none _ hflat
  have hp2 : (loopState cfg strat bars).equity_curve.getLast? = some p := by
    have hcv : (run cfg strat bars).equity_curve =
        (loopState cfg strat bars).equity_curve := by
      rw [run_curve, hrun]
    rwa [hcv] at hp
  show p.equity = (runState cfg strat bars).equity
  rw [hrun]
  unfold loopState at hp2 ⊢
  exact foldl_step_lastEq cfg strat bars _ _
    (by intro q hq; simp [initState] at hq) p hp2

/-- C6 amended witness: a run that never trades — flat at the final close,
final_equity equals the last equity point's value. -/
theorem C6_amended_witness :
    (run cfgW stratH barsW).final_equity = (runState cfgW stratH barsW).equity ∧
    (run cfgW stratH barsW).return_pct =
      ((run cfgW stratH barsW).final_equity / cfgW.initial_equity - 1) * 100 ∧
    EquityPoint.equity ⟨2, 1000⟩ = (run cfgW stratH barsW).final_equity := by
  obtain ⟨h1, h2, h3⟩ := C6_amended_final_equity cfgW stratH barsW
  exact ⟨h1, h2, h3 (by rw [loopH_eval]) ⟨2, 1000⟩ (by rw [run_curve, runH_eval]; rfl)⟩

/-- C7: at a would-be entry whose bar ATR is undefined (NaN) or ≤ 0 —
given that the ATR column is a rolling mean of true ranges and hence
nonnegative wherever defined (`AtrOk`, established for the pipeline by
`atrOk_of_pipeline`) — position sizing returns exactly 0 and the entry is
silently skipped with no state change; and the entry is likewise skipped
whenever the sized units are ≤ 0. -/
theorem C7_zero_atr_skip :
    (∀ (cfg : Config) (bars : List Bar) (i : Nat) (d : Int) (st : BTState), AtrOk bars →
      ((bar bars i).atr = none ∨ ∃ a, (bar bars i).atr = some a ∧ a ≤ 0) →
      _position_sizing cfg st.equity (next_open_with_slippage cfg (bar bars i).open_ d)
        (bar bars i).atr = 0 ∧ _enter cfg bars i d st = st) ∧
    (∀ (cfg : Config) (bars : List Bar) (i : Nat) (d : Int) (st : BTState),
      _position_sizing cfg st.equity (next_open_with_slippage cfg (bar bars i).open_ d)
        (bar bars i).atr ≤ 0 → _enter cfg bars i d st = st) := by
  constructor
  · intro cfg bars i d st hA hatr
    have h0 : _position_sizing cfg st.equity
        (next_open_with_slippage cfg (bar bars i).open_ d) (bar bars i).atr = 0 := by
      rcases hatr with hn | ⟨a, ha, hle⟩
      · rw [hn]
        rfl
      · have hnn := bar_atrOk bars hA i
        rw [ha] at hnn
        simp only [Option.getD_some] at hnn
        have ha0 : a = 0 := le_antisymm hle hnn
        rw [ha, ha0]
        simp [_position_sizing]
    exact ⟨h0, enter_skip cfg bars i d st (le_of_eq h0)⟩
  · intro cfg bars i d st h
    exact enter_skip cfg bars i d st h

/-- C7 witness: a bar with ATR exactly 0 sizes to 0 and the entry is a
no-op on the initial state. -/
theorem C7_zero_atr_skip_witness :
    _position_sizing cfgW (initState cfgW).equity
      (next_open_with_slippage cfgW (bar barsZ 0).open_ 1) (bar barsZ 0).atr = 0 ∧
    _enter cfgW barsZ 0 1 (initState cfgW) = initState cfgW :=
  C7_zero_atr_skip.1 cfgW barsZ 0 1 (initState cfgW)
    (by simp [AtrOk, barsZ])
    (Or.inr ⟨0, by norm_num [bar, barsZ], le_refl 0⟩)

/-- C8: exactly one EquityPoint is appended per processed bar of the main
loop (indices 1 through length − 2), carrying that bar's timestamp, in bar
order; and every single step appends exactly one point with the post-step
equity regardless of the branch taken. -/
theorem C8_equity_recording (cfg : Config) (strat : Nat → List Bar → String)
    (bars : List Bar) :
    (run cfg strat bars).equity_curve.map EquityPoint.datetime =
      (List.range' 1 (bars.length - 2)).map (fun i => (bar bars i).datetime) ∧
    ∀ (st : BTState) (i : Nat), (step cfg strat bars st i).equity_curve =
      st.equity_curve ++ [⟨(bar bars i).datetime, (step cfg strat bars st i).equity⟩] := by
  constructor
  · rw [run_curve]
    rw [show (runState cfg strat bars).equity_curve =
        (loopState cfg strat bars).equity_curve from by
      unfold runState; exact exit_curve ..]
    unfold loopState
    rw [foldl_step_curve_map]
    simp [initState]
  · exact fun st i => step_curve cfg strat bars st i

/-- C9 counterexample: position sizing with negative equity (reachable
after large adverse fills) returns a negative size, refuting the claim
that the result is never negative. -/
theorem C9_cex_negative_sizing :
    _position_sizing ⟨0, 0, 1000, 1/100, 2, 0, 1439⟩ (-100) 10 (some 1) = -20 ∧
    ¬ (0 : ℚ) ≤ -20 := by
  constructor
  · norm_num [_position_sizing, min_def]
  · norm_num

/-- C9 (amended): for a defined positive atr the sizing returns
min((equity × risk_fraction) / atr, (equity × max_leverage) / price), and
the result is nonnegative provided equity, risk_fraction and max_leverage
are nonnegative and price is positive (with negative equity the minimum
can be negative, as the counterexample shows). -/
theorem C9_amended_sizing (cfg : Config) (equity price a : ℚ) (ha : 0 < a) :
    _position_sizing cfg equity price (some a) =
      min ((equity * cfg.risk_fraction) / a) ((equity * cfg.max_leverage) / price) ∧
    (0 ≤ equity → 0 ≤ cfg.risk_fraction → 0 ≤ cfg.max_leverage → 0 < price →
      0 ≤ _position_sizing cfg equity price (some a)) := by
  have hne : a ≠ 0 := ne_of_gt ha
  constructor
  · simp [_position_sizing, hne]
  · intro he hr hl hp
    simp only [_position_sizing, hne, if_false]
    exact le_min (div_nonneg (mul_nonneg he hr) ha.le)
      (div_nonneg (mul_nonneg he hl) hp.le)

/-- C9 amended witness: concrete positive-atr sizing with nonnegative
equity. -/
theorem C9_amended_sizing_witness :
    _position_sizing cfgW 1000 10 (some 2) =
      min ((1000 * cfgW.risk_fraction) / 2) ((1000 * cfgW.max_leverage) / 10) ∧
    0 ≤ _position_sizing cfgW 1000 10 (some 2) :=
  ⟨(C9_amended_sizing cfgW 1000 10 2 (by norm_num)).1,
   (C9_amended_sizing cfgW 1000 10 2 (by norm_num)).2 (by norm_num)
     (by norm_num [cfgW]) (by norm_num [cfgW]) (by norm_num)⟩

/-- C10: at every point of the main loop (here after any number `k` of
iterations), under the pipeline guarantee that ATR values are nonnegative,
an open position always carries non-null stop and target of the
direction-dependent shape stop = entry ∓ atr, target = entry ± 1.5 × atr
for some positive atr value — the null-levels branch of `_enter` is
unreachable because a successful entry forces atr > 0. -/
theorem C10_open_levels (cfg : Config) (strat : Nat → List Bar → String)
    (bars : List Bar) (k : Nat) (hA : AtrOk bars) :
    OpenOk (stepsUpTo cfg strat bars k) := by
  unfold stepsUpTo
  refine foldl_step_preserves cfg strat bars OpenOk
    (fun i d st hd _hpos h => open_enter cfg bars hA i d st hd h)
    (fun i r o st _h => open_exit cfg bars i r o st)
    (fun st l h => fun hc => h hc) _ _ (fun hc => absurd rfl hc)

/-- C10 witness: after the first loop iteration of the `cfgX` run the open
long carries stop and target. -/
theorem C10_open_levels_witness : OpenOk (stepsUpTo cfgX stratX barsX 1) :=
  C10_open_levels cfgX stratX barsX 1 (by simp [AtrOk, barsX])

end Intraday
